import Mathlib

/-!
Verification of the render-tree core of the mobiledoc-kit repository
(src/dist/content-kit-editor.js, RenderNode module, lines 1103-1185).

Shallow embedding: RenderNodes are identified by natural numbers, DOM
elements by natural numbers.  All RenderNodes of a tree share its
element-to-RenderNode index, so the global state is a map from node ids
to RenderNode records together with the index.  JavaScript null is
Option.none; a JavaScript crash (TypeError on a null dereference, or an
assertion failure) makes the operation return none / an error value.
-/

namespace MobiledocRenderTree

/-- The post-model node a RenderNode represents.  The render core only
inspects its isCardSection discriminator (in reparsesMutationOfChildNode),
so the embedding keeps just that field. -/
structure PostNode where
  isCardSection : Bool
deriving DecidableEq, Repr

/-- A card's controller object.  The render core only dereferences its
element property (the card's own owned DOM element). -/
structure CardNode where
  element : Option Nat
deriving DecidableEq, Repr

/-- One RenderNode, from the class fields assigned in the constructor
(content-kit-editor.js lines 1109-1129).  The renderTree field is the
node's reference to its owning RenderTree; since all nodes in a state
share one tree, the embedding keeps only whether the reference is
non-null (destroy sets it to null). -/
structure RenderNode where
  parent : Option Nat
  isDirty : Bool
  isRemoved : Bool
  postNode : Option PostNode
  childNodesList : Option (List Nat)
  underElement : Option Nat
  renderTree : Bool
  markupElement : Option Nat
  headTextNode : Option Nat
  tailTextNode : Option Nat
  atomNode : Option Nat
  cardNode : Option CardNode
deriving DecidableEq, Repr

/-- The RenderNode constructor (lines 1109-1129): born dirty, not
removed, unrendered, parentless, all specialized slots null. -/
def RenderNode.construct (postNode : Option PostNode) (renderTree : Bool) : RenderNode :=
  { parent := none
  , isDirty := true
  , isRemoved := false
  , postNode := postNode
  , childNodesList := none
  , underElement := none
  , renderTree := renderTree
  , markupElement := none
  , headTextNode := none
  , tailTextNode := none
  , atomNode := none
  , cardNode := none }

/-- The isRendered getter (lines 1152-1154): true iff the element is
non-null. -/
def RenderNode.isRendered (rn : RenderNode) : Bool :=
  rn.underElement.isSome

/-- Shared state of one RenderTree: every node id maps to a RenderNode
record, and the tree holds the element-to-RenderNode index. -/
structure State where
  nodes : Nat → RenderNode
  index : Nat → Option Nat

/-- Replace the record of one node, leaving every other node alone. -/
def updateNode (st : State) (n : Nat) (f : RenderNode → RenderNode) : State :=
  { st with nodes := fun m => if m = n then f (st.nodes m) else st.nodes m }

/-- Modelled from the spec: RenderTree.setElementRenderNode stores the
mapping element to RenderNode in the tree's index (the RenderTree class
is imported but not part of the sources; the spec says the index is a
mapping with unique keys written only through these two mutators). -/
def setElementRenderNode (st : State) (e : Nat) (n : Nat) : State :=
  { st with index := fun x => if x = e then some n else st.index x }

/-- Modelled from the spec: RenderTree.removeElementRenderNode deletes
the element's entry from the tree's index. -/
def removeElementRenderNode (st : State) (e : Nat) : State :=
  { st with index := fun x => if x = e then none else st.index x }

/-- Modelled from the spec: RenderTree.getElementRenderNode looks an
element up in the index, returning the RenderNode or null. -/
def getElementRenderNode (st : State) (e : Nat) : Option Nat :=
  st.index e

/-- The element setter (lines 1158-1169): remembers the current element,
overwrites the backing field, then deregisters the previous non-null
element and registers the new non-null element with the tree.  Each of
the two tree calls dereferences this.renderTree, so it crashes (none)
when the reference is null and there is a non-null element on that
side. -/
def setElement (st : State) (n : Nat) (e : Option Nat) : Option State :=
  let node := st.nodes n
  let st1 := updateNode st n (fun rn => { rn with underElement := e })
  let afterRemove : Option State :=
    match node.underElement with
    | some c => if node.renderTree then some (removeElementRenderNode st1 c) else none
    | none => some st1
  match afterRemove with
  | none => none
  | some st2 =>
    match e with
    | some e2 => if node.renderTree then some (setElementRenderNode st2 e2 n) else none
    | none => some st2

/-- markDirty (lines 1148-1151): set isDirty and recurse into the
parent.  The JavaScript recursion terminates because parent chains in a
real tree are finite and acyclic; the embedding makes that explicit with
a fuel argument, and every theorem assumes fuel enough to reach the root
(pathToRoot returns some). -/
def markDirtyFuel : Nat → State → Nat → State
  | 0, st, _ => st
  | fuel + 1, st, n =>
    let st1 := updateNode st n (fun rn => { rn with isDirty := true })
    match (st.nodes n).parent with
    | none => st1
    | some p => markDirtyFuel fuel st1 p

/-- The chain from a node to the root following parent links, or none
when the fuel does not suffice (an infinite or too-long chain). -/
def pathToRoot : Nat → State → Nat → Option (List Nat)
  | 0, _, _ => none
  | fuel + 1, st, n =>
    match (st.nodes n).parent with
    | none => some [n]
    | some p => (pathToRoot fuel st p).map (fun l => n :: l)

/-- markClean (lines 1155-1157): clears isDirty, nothing else. -/
def markClean (st : State) (n : Nat) : State :=
  updateNode st n (fun rn => { rn with isDirty := false })

/-- scheduleForRemoval (lines 1144-1147): sets isRemoved and, when the
parent is non-null, marks the parent dirty. -/
def scheduleForRemovalFuel (fuel : Nat) (st : State) (n : Nat) : State :=
  let st1 := updateNode st n (fun rn => { rn with isRemoved := true })
  match (st.nodes n).parent with
  | none => st1
  | some p => markDirtyFuel fuel st1 p

/-- destroy (lines 1173-1178): assigns null to element (through the
setter, which deregisters the old element from the index), then nulls
parent, postNode and renderTree. -/
def destroy (st : State) (n : Nat) : Option State :=
  match setElement st n none with
  | none => none
  | some st1 =>
    some (updateNode st1 n (fun rn =>
      { rn with parent := none, postNode := none, renderTree := false }))

/-- How isAttached can fail: the explicit assertion on a null element
(lines 1131-1132), or the JavaScript TypeError from dereferencing a null
renderTree when reading rootElement. -/
inductive AttachFailure where
  | assertionError
  | typeError
deriving DecidableEq, Repr

/-- isAttached (lines 1130-1134): asserts the element is non-null, then
reports containsNode of the tree's root DOM element and the node's
element.  containsNode (from dom-utils, imported but not in the sources)
is modelled from the spec as an abstract decidable relation cns, read
cns root el as: el is a descendant of or equal to root.  The tree's
rootElement is the rootEl parameter; a null renderTree reference makes
the rootElement read crash after the assertion has passed. -/
def isAttached (cns : Nat → Nat → Bool) (rootEl : Nat) (rn : RenderNode) :
    Except AttachFailure Bool :=
  match rn.underElement with
  | none => Except.error AttachFailure.assertionError
  | some el =>
    if rn.renderTree then Except.ok (cns rootEl el)
    else Except.error AttachFailure.typeError

/-- reparsesMutationOfChildNode (lines 1179-1184): for a card section,
answer the negation of cardNode.element.contains(node); otherwise true.
Dereferencing postNode, cardNode or cardNode.element while null crashes
(none).  cns is the abstract DOM containment relation, cns a b meaning b
is an inclusive descendant of a. -/
def reparsesMutationOfChildNode (cns : Nat → Nat → Bool) (rn : RenderNode)
    (node : Nat) : Option Bool :=
  match rn.postNode with
  | none => none
  | some pn =>
    if pn.isCardSection then
      match rn.cardNode with
      | none => none
      | some cn =>
        match cn.element with
        | none => none
        | some el => some (!(cns el node))
    else some true

/-- Run a sequence of element assignments, each a pair of node id and
new element value, stopping with none if any single assignment
crashes. -/
def applyAssignments (st : State) : List (Nat × Option Nat) → Option State
  | [] => some st
  | (n, e) :: rest =>
    match setElement st n e with
    | none => none
    | some st1 => applyAssignments st1 rest

/-- Mark a sequence of nodes dirty, left to right. -/
def markDirtySeq (fuel : Nat) (st : State) (ns : List Nat) : State :=
  ns.foldl (fun s n => markDirtyFuel fuel s n) st

/-- The element-index consistency property the spec claims: at most one
node owns any element, and the index lookup resolves an element to
exactly the node owning it (none when no node owns it). -/
def IndexConsistent (st : State) : Prop :=
  (∀ n1 n2 e, (st.nodes n1).underElement = some e →
      (st.nodes n2).underElement = some e → n1 = n2) ∧
  (∀ e n, st.index e = some n ↔ (st.nodes n).underElement = some e)

/-- A single assignment is fresh when its new element, if non-null, is
not currently the element of any other node. -/
def Fresh (st : State) (n : Nat) (e : Option Nat) : Prop :=
  ∀ e2, e = some e2 → ∀ m, m ≠ n → (st.nodes m).underElement ≠ some e2

/-- Every assignment of a sequence is fresh in the state it is applied
to. -/
def FreshSeq (st : State) : List (Nat × Option Nat) → Prop
  | [] => True
  | (n, e) :: rest =>
    Fresh st n e ∧ ∀ st1, setElement st n e = some st1 → FreshSeq st1 rest

/-- A freshly constructed node attached to a live tree. -/
def freshLiveNode : RenderNode :=
  RenderNode.construct none true

/-- A clean, unrendered, parentless live node. -/
def cleanNode : RenderNode :=
  { freshLiveNode with isDirty := false }

/-- A three-node chain: node 0 is the grandchild, node 1 its parent,
node 2 the root; everything is clean and unrendered. -/
def chainState : State :=
  { nodes := fun k =>
      if k = 0 then { cleanNode with parent := some 1 }
      else if k = 1 then { cleanNode with parent := some 2 }
      else cleanNode
  , index := fun _ => none }

/-- A flat state of fresh live nodes with an empty index. -/
def twoNodeState : State :=
  { nodes := fun _ => freshLiveNode, index := fun _ => none }

/-- Assign element 5 to node 0 and then element 5 to node 1. -/
def doubleAssign : Option State :=
  applyAssignments twoNodeState [(0, some 5), (1, some 5)]

/-- The state the double assignment produces. -/
def doubleAssignState : State :=
  doubleAssign.getD twoNodeState

/-- The state after the single fresh assignment of element 5 to
node 0. -/
def singleAssignState : State :=
  (applyAssignments twoNodeState [(0, some 5)]).getD twoNodeState

/-- A live node already rendered into element 7. -/
def nodeWithElem : RenderNode :=
  { freshLiveNode with underElement := some 7 }

/-- A one-node state where node 0 is rendered into element 7 and the
index resolves element 7 to node 0. -/
def renderedState : State :=
  { nodes := fun k => if k = 0 then nodeWithElem else freshLiveNode
  , index := fun x => if x = 7 then some 0 else none }

/-- The state destroy produces from renderedState on node 0. -/
def destroyedState : State :=
  (destroy renderedState 0).getD renderedState

/-- Concrete DOM containment relation used in witnesses: equality. -/
def cnsEq : Nat → Nat → Bool :=
  fun a b => decide (a = b)

/-- A render node for a card section whose card owns element 4. -/
def cardRN : RenderNode :=
  { freshLiveNode with
      postNode := some { isCardSection := true }
    , cardNode := some { element := some 4 } }

/-! General lemmas about the operations, followed by the claim
theorems and their closed instances. -/

theorem updateNode_nodes (st : State) (n : Nat) (f : RenderNode → RenderNode) (m : Nat) :
    (updateNode st n f).nodes m = if m = n then f (st.nodes m) else st.nodes m := rfl

theorem updateNode_index (st : State) (n : Nat) (f : RenderNode → RenderNode) :
    (updateNode st n f).index = st.index := rfl

/-- markDirtyFuel changes at most the isDirty flag of each node, and
leaves the element index untouched. -/
theorem markDirtyFuel_frame (fuel : Nat) :
    ∀ st n m, (markDirtyFuel fuel st n).nodes m =
        { st.nodes m with isDirty := ((markDirtyFuel fuel st n).nodes m).isDirty } ∧
      (markDirtyFuel fuel st n).index = st.index := by
  induction fuel with
  | zero => intro st n m; exact ⟨rfl, rfl⟩
  | succ fuel ih =>
    intro st n m
    simp only [markDirtyFuel]
    cases hpar : (st.nodes n).parent with
    | none =>
      constructor
      · simp only [updateNode_nodes]
        by_cases hm : m = n <;> simp [hm]
      · rfl
    | some p =>
      obtain ⟨h1, h2⟩ := ih (updateNode st n (fun rn => { rn with isDirty := true })) p m
      constructor
      · rw [h1]
        simp only [updateNode_nodes]
        by_cases hm : m = n <;> simp [hm]
      · rw [h2]; rfl

theorem markDirtyFuel_parent (fuel : Nat) (st : State) (n m : Nat) :
    ((markDirtyFuel fuel st n).nodes m).parent = ((st.nodes m).parent) := by
  rw [(markDirtyFuel_frame fuel st n m).1]

/-- pathToRoot depends only on the parent links. -/
theorem pathToRoot_congr (fuel : Nat) :
    ∀ st st' : State, (∀ k, (st'.nodes k).parent = (st.nodes k).parent) →
      ∀ n, pathToRoot fuel st' n = pathToRoot fuel st n := by
  induction fuel with
  | zero => intro st st' _ n; rfl
  | succ fuel ih =>
    intro st st' hpar n
    simp only [pathToRoot, hpar n]
    cases (st.nodes n).parent with
    | none => rfl
    | some p => dsimp only; rw [ih st st' hpar p]

/-- A node is the head of its own path to the root. -/
theorem pathToRoot_mem (fuel : Nat) :
    ∀ st n p, pathToRoot fuel st n = some p → n ∈ p := by
  induction fuel with
  | zero => intro st n p h; exact absurd h (by simp [pathToRoot])
  | succ fuel _ =>
    intro st n p h
    simp only [pathToRoot] at h
    cases hpar : (st.nodes n).parent with
    | none => rw [hpar] at h; cases h; exact List.mem_singleton.mpr rfl
    | some q =>
      rw [hpar] at h; dsimp only at h
      cases hq : pathToRoot fuel st q with
      | none => rw [hq] at h; cases h
      | some l => rw [hq] at h; cases h; exact List.mem_cons_self n l

/-- The exact effect of markDirtyFuel on the dirty flags: a node is
dirty afterwards iff it was dirty before or lies on the marked node's
path to the root. -/
theorem markDirtyFuel_isDirty (fuel : Nat) :
    ∀ st n p, pathToRoot fuel st n = some p →
      ∀ m, (((markDirtyFuel fuel st n).nodes m).isDirty = true ↔
        ((st.nodes m).isDirty = true ∨ m ∈ p)) := by
  induction fuel with
  | zero => intro st n p h; exact absurd h (by simp [pathToRoot])
  | succ fuel ih =>
    intro st n p h m
    simp only [pathToRoot] at h
    simp only [markDirtyFuel]
    cases hpar : (st.nodes n).parent with
    | none =>
      rw [hpar] at h; cases h
      simp only [updateNode_nodes]
      by_cases hm : m = n <;> simp [hm]
    | some q =>
      rw [hpar] at h; dsimp only at h
      cases hq : pathToRoot fuel st q with
      | none => rw [hq] at h; cases h
      | some l =>
        rw [hq] at h; cases h
        dsimp only
        have hstable : pathToRoot fuel
            (updateNode st n (fun rn => { rn with isDirty := true })) q =
            pathToRoot fuel st q := by
          apply pathToRoot_congr
          intro k
          simp only [updateNode_nodes]
          by_cases hk : k = n <;> simp [hk]
        have := ih (updateNode st n (fun rn => { rn with isDirty := true })) q l
          (hstable.trans hq) m
        rw [this]
        simp only [updateNode_nodes]
        by_cases hm : m = n
        · simp [hm, List.mem_cons]
        · simp only [hm, if_false, List.mem_cons]
          tauto

/-- Parent links are stable under markDirtyFuel, so paths computed
before and after marking agree. -/
theorem pathToRoot_markDirty_stable (fuel fuel2 : Nat) (st : State) (n k : Nat) :
    pathToRoot fuel2 (markDirtyFuel fuel st n) k = pathToRoot fuel2 st k :=
  pathToRoot_congr fuel2 st (markDirtyFuel fuel st n)
    (fun j => markDirtyFuel_parent fuel st n j) k

/-- The dirty flags after marking a whole sequence of nodes: dirty iff
dirty before, or on the path to the root of one of the marked nodes. -/
theorem markDirtySeq_isDirty (fuel : Nat) :
    ∀ ns : List Nat, ∀ st : State, (∀ n ∈ ns, (pathToRoot fuel st n).isSome) →
      ∀ m, (((markDirtySeq fuel st ns).nodes m).isDirty = true ↔
        ((st.nodes m).isDirty = true ∨
          ∃ n ∈ ns, ∃ p, pathToRoot fuel st n = some p ∧ m ∈ p)) := by
  intro ns
  induction ns with
  | nil => intro st _ m; simp [markDirtySeq]
  | cons n rest ih =>
    intro st hpaths m
    have hn : (pathToRoot fuel st n).isSome :=
      hpaths n (List.mem_cons_self n rest)
    obtain ⟨pn, hpn⟩ := Option.isSome_iff_exists.mp hn
    have hseq : markDirtySeq fuel st (n :: rest) =
        markDirtySeq fuel (markDirtyFuel fuel st n) rest := rfl
    have hstable : ∀ k, pathToRoot fuel (markDirtyFuel fuel st n) k =
        pathToRoot fuel st k :=
      fun k => pathToRoot_markDirty_stable fuel fuel st n k
    have hpaths2 : ∀ k ∈ rest, (pathToRoot fuel (markDirtyFuel fuel st n) k).isSome := by
      intro k hk
      rw [hstable k]
      exact hpaths k (List.mem_cons_of_mem n hk)
    rw [hseq, ih (markDirtyFuel fuel st n) hpaths2 m]
    rw [markDirtyFuel_isDirty fuel st n pn hpn m]
    constructor
    · rintro ((hd | hmem) | ⟨k, hk, p, hp, hm⟩)
      · exact Or.inl hd
      · exact Or.inr ⟨n, List.mem_cons_self n rest, pn, hpn, hmem⟩
      · rw [hstable k] at hp
        exact Or.inr ⟨k, List.mem_cons_of_mem n hk, p, hp, hm⟩
    · rintro (hd | ⟨k, hk, p, hp, hm⟩)
      · exact Or.inl (Or.inl hd)
      · rcases List.mem_cons.mp hk with hkn | hkr
        · subst hkn
          rw [hpn] at hp
          cases hp
          exact Or.inl (Or.inr hm)
        · exact Or.inr ⟨k, hkr, p, (hstable k).symm ▸ hp, hm⟩

/-- C2: markDirty on a node N with path A1..Ak to the root makes N and
every ancestor dirty; and after marking any sequence of nodes of an
all-clean tree, the dirty set is exactly the union of the marked nodes'
paths to the root. -/
theorem markDirty_propagation :
    (∀ fuel st n p, pathToRoot fuel st n = some p →
      ∀ a ∈ p, ((markDirtyFuel fuel st n).nodes a).isDirty = true) ∧
    (∀ fuel st ns, (∀ m, (st.nodes m).isDirty = false) →
      (∀ n ∈ ns, (pathToRoot fuel st n).isSome) →
      ∀ m, (((markDirtySeq fuel st ns).nodes m).isDirty = true ↔
        ∃ n ∈ ns, ∃ p, pathToRoot fuel st n = some p ∧ m ∈ p)) := by
  constructor
  · intro fuel st n p h a ha
    exact (markDirtyFuel_isDirty fuel st n p h a).mpr (Or.inr ha)
  · intro fuel st ns hclean hpaths m
    rw [markDirtySeq_isDirty fuel ns st hpaths m, hclean m]
    simp

/-- Closed instance of C2 on the three-node chain: marking the
grandchild dirties the grandchild, its parent and the root. -/
theorem markDirty_propagation_witness :
    ((markDirtyFuel 3 chainState 0).nodes 0).isDirty = true ∧
    ((markDirtyFuel 3 chainState 0).nodes 1).isDirty = true ∧
    ((markDirtyFuel 3 chainState 0).nodes 2).isDirty = true :=
  ⟨markDirty_propagation.1 3 chainState 0 [0, 1, 2] (by decide) 0 (by decide),
   markDirty_propagation.1 3 chainState 0 [0, 1, 2] (by decide) 1 (by decide),
   markDirty_propagation.1 3 chainState 0 [0, 1, 2] (by decide) 2 (by decide)⟩

/-- C3: marking the same node dirty twice leaves every node's isDirty
flag exactly as after marking it once. -/
theorem markDirty_idempotent (fuel : Nat) (st : State) (n : Nat) (p : List Nat)
    (h : pathToRoot fuel st n = some p) :
    ∀ m, ((markDirtyFuel fuel (markDirtyFuel fuel st n) n).nodes m).isDirty =
      ((markDirtyFuel fuel st n).nodes m).isDirty := by
  intro m
  have hstable : pathToRoot fuel (markDirtyFuel fuel st n) n = some p := by
    rw [pathToRoot_markDirty_stable fuel fuel st n n]; exact h
  have h2 := markDirtyFuel_isDirty fuel (markDirtyFuel fuel st n) n p hstable m
  have h1 := markDirtyFuel_isDirty fuel st n p h m
  rw [Bool.eq_iff_iff]
  simp only [h2, h1]
  tauto

/-- Closed instance of C3 on the three-node chain. -/
theorem markDirty_idempotent_witness :
    ((markDirtyFuel 3 (markDirtyFuel 3 chainState 0) 0).nodes 1).isDirty =
      ((markDirtyFuel 3 chainState 0).nodes 1).isDirty :=
  markDirty_idempotent 3 chainState 0 [0, 1, 2] (by decide) 1

/-- C4: markClean clears the node's isDirty flag, changes no other
field of the node, no other node, and not the element index. -/
theorem markClean_effect (st : State) (n : Nat) :
    ((markClean st n).nodes n = { st.nodes n with isDirty := false }) ∧
    (∀ m, m ≠ n → (markClean st n).nodes m = st.nodes m) ∧
    ((markClean st n).index = st.index) := by
  refine ⟨?_, ?_, rfl⟩
  · simp [markClean, updateNode_nodes]
  · intro m hm
    simp [markClean, updateNode_nodes, hm]

/-- Closed instance of C4: cleaning the grandchild of the fully dirty
chain leaves the parent and the root dirty and clears the
grandchild. -/
theorem markClean_effect_witness :
    ((markClean (markDirtyFuel 3 chainState 0) 0).nodes 1).isDirty = true ∧
    ((markClean (markDirtyFuel 3 chainState 0) 0).nodes 2).isDirty = true ∧
    ((markClean (markDirtyFuel 3 chainState 0) 0).nodes 0).isDirty = false := by
  obtain ⟨h0, hother, _⟩ := markClean_effect (markDirtyFuel 3 chainState 0) 0
  refine ⟨?_, ?_, ?_⟩
  · rw [hother 1 (by decide)]; decide
  · rw [hother 2 (by decide)]; decide
  · rw [h0]

/-- C5: scheduleForRemoval sets isRemoved on the node, dirties the
parent (and the whole ancestor path) when there is one, and leaves
every node's postNode and element, and the element index,
untouched. -/
theorem scheduleForRemoval_effect (fuel : Nat) (st : State) (n : Nat) :
    (((scheduleForRemovalFuel fuel st n).nodes n).isRemoved = true) ∧
    (∀ q p, (st.nodes n).parent = some q → pathToRoot fuel st q = some p →
      ∀ a ∈ p, ((scheduleForRemovalFuel fuel st n).nodes a).isDirty = true) ∧
    (∀ m, ((scheduleForRemovalFuel fuel st n).nodes m).postNode =
      (st.nodes m).postNode) ∧
    (∀ m, ((scheduleForRemovalFuel fuel st n).nodes m).underElement =
      (st.nodes m).underElement) ∧
    ((scheduleForRemovalFuel fuel st n).index = st.index) := by
  have hnodes : ∀ m, (scheduleForRemovalFuel fuel st n).nodes m =
      { (updateNode st n (fun rn => { rn with isRemoved := true })).nodes m with
          isDirty := ((scheduleForRemovalFuel fuel st n).nodes m).isDirty } ∧
      (scheduleForRemovalFuel fuel st n).index =
        (updateNode st n (fun rn => { rn with isRemoved := true })).index := by
    intro m
    simp only [scheduleForRemovalFuel]
    cases hpar : (st.nodes n).parent with
    | none => exact ⟨rfl, rfl⟩
    | some q =>
      exact markDirtyFuel_frame fuel
        (updateNode st n (fun rn => { rn with isRemoved := true })) q m
  refine ⟨?_, ?_, ?_, ?_, ?_⟩
  · rw [(hnodes n).1]
    simp [updateNode_nodes]
  · intro q p hpar hpath a ha
    simp only [scheduleForRemovalFuel, hpar]
    have hstable : pathToRoot fuel
        (updateNode st n (fun rn => { rn with isRemoved := true })) q =
        pathToRoot fuel st q := by
      apply pathToRoot_congr
      intro k
      simp only [updateNode_nodes]
      by_cases hk : k = n <;> simp [hk]
    exact (markDirtyFuel_isDirty fuel _ q p (hstable.trans hpath) a).mpr (Or.inr ha)
  · intro m
    rw [(hnodes m).1]
    simp only [updateNode_nodes]
    by_cases hm : m = n <;> simp [hm]
  · intro m
    rw [(hnodes m).1]
    simp only [updateNode_nodes]
    by_cases hm : m = n <;> simp [hm]
  · rw [(hnodes 0).2]
    rfl

/-- Closed instance of C5 on the rendered one-node state extended with
a parent: scheduling the grandchild of the chain for removal marks the
parent dirty and keeps elements and index intact. -/
theorem scheduleForRemoval_effect_witness :
    (((scheduleForRemovalFuel 3 chainState 0).nodes 0).isRemoved = true) ∧
    (((scheduleForRemovalFuel 3 chainState 0).nodes 1).isDirty = true) ∧
    (((scheduleForRemovalFuel 3 chainState 0).nodes 1).underElement =
      (chainState.nodes 1).underElement) := by
  obtain ⟨h1, h2, _, h4, _⟩ := scheduleForRemoval_effect 3 chainState 0
  exact ⟨h1, h2 1 [1, 2] (by decide) (by decide) 1 (by decide), h4 1⟩

/-- Exact characterization of a successful element assignment: the
node's backing field becomes the new value, no other node changes, and
the index maps the new element to the node, drops the old element, and
keeps everything else. -/
theorem setElement_spec (st : State) (n : Nat) (e : Option Nat) (st1 : State)
    (h : setElement st n e = some st1) :
    (∀ m, st1.nodes m =
        if m = n then { st.nodes m with underElement := e } else st.nodes m) ∧
    (∀ x, st1.index x =
        if some x = e then some n
        else if (st.nodes n).underElement = some x then none
        else st.index x) := by
  unfold setElement at h
  dsimp only at h
  cases hcur : (st.nodes n).underElement with
  | none =>
    rw [hcur] at h; dsimp only at h
    cases e with
    | none =>
      cases h
      refine ⟨fun m => rfl, fun x => ?_⟩
      simp [updateNode_index]
    | some e2 =>
      dsimp only at h
      by_cases hrt : (st.nodes n).renderTree = true
      · rw [if_pos hrt] at h
        cases h
        refine ⟨fun m => rfl, fun x => ?_⟩
        simp only [setElementRenderNode, updateNode_index]
        by_cases hx : x = e2 <;> simp [hx]
      · rw [if_neg hrt] at h
        cases h
  | some c =>
    rw [hcur] at h; dsimp only at h
    by_cases hrt : (st.nodes n).renderTree = true
    · rw [if_pos hrt] at h
      dsimp only at h
      cases e with
      | none =>
        dsimp only at h
        cases h
        refine ⟨fun m => rfl, fun x => ?_⟩
        simp only [removeElementRenderNode, updateNode_index]
        by_cases hx : x = c
        · subst hx; simp
        · have hcx : ¬ (some c = some x) := by
            simp only [Option.some.injEq]
            exact fun hh => hx hh.symm
          simp [hx, hcx]
      | some e2 =>
        dsimp only at h
        rw [if_pos hrt] at h
        cases h
        refine ⟨fun m => rfl, fun x => ?_⟩
        simp only [setElementRenderNode, removeElementRenderNode, updateNode_index]
        by_cases hx : x = e2
        · simp [hx]
        · by_cases hxc : x = c
          · subst hxc; simp [hx]
          · have hcx : ¬ (some c = some x) := by
              simp only [Option.some.injEq]
              exact fun hh => hxc hh.symm
            simp [hx, hxc, hcx]
    · rw [if_neg hrt] at h
      cases h

/-- A fresh successful assignment preserves element-index
consistency. -/
theorem setElement_preserves_consistency (st : State) (n : Nat) (e : Option Nat)
    (st1 : State) (hc : IndexConsistent st) (hf : Fresh st n e)
    (h : setElement st n e = some st1) : IndexConsistent st1 := by
  obtain ⟨hnodes, hindex⟩ := setElement_spec st n e st1 h
  obtain ⟨huniq, hiff⟩ := hc
  constructor
  · intro n1 n2 e2 h1 h2
    rw [hnodes n1] at h1
    rw [hnodes n2] at h2
    by_cases h1n : n1 = n <;> by_cases h2n : n2 = n
    · rw [h1n, h2n]
    · rw [if_pos h1n] at h1
      rw [if_neg h2n] at h2
      exact absurd h2 (hf e2 h1 n2 h2n)
    · rw [if_neg h1n] at h1
      rw [if_pos h2n] at h2
      exact absurd h1 (hf e2 h2 n1 h1n)
    · rw [if_neg h1n] at h1
      rw [if_neg h2n] at h2
      exact huniq n1 n2 e2 h1 h2
  · intro e2 k
    rw [hindex e2, hnodes k]
    by_cases he : some e2 = e
    · rw [if_pos he]
      by_cases hk : k = n
      · subst hk
        rw [if_pos rfl]
        simp [he.symm]
      · rw [if_neg hk]
        have hkfresh := hf e2 he.symm k hk
        constructor
        · intro hnk
          exact absurd (Option.some.inj hnk).symm hk
        · intro hk2
          exact absurd hk2 hkfresh
    · rw [if_neg he]
      by_cases hcur : (st.nodes n).underElement = some e2
      · rw [if_pos hcur]
        constructor
        · intro hnone; cases hnone
        · intro hk2
          by_cases hk : k = n
          · rw [if_pos hk] at hk2
            exact absurd hk2.symm he
          · rw [if_neg hk] at hk2
            exact absurd (huniq k n e2 hk2 hcur) hk
      · rw [if_neg hcur]
        by_cases hk : k = n
        · subst hk
          rw [if_pos rfl]
          rw [hiff e2 k]
          constructor
          · intro hk2
            exact absurd hk2 hcur
          · intro hk2
            exact absurd hk2.symm he
        · rw [if_neg hk]
          exact hiff e2 k

/-- Running a fresh sequence of assignments from a consistent state
keeps the state consistent. -/
theorem applyAssignments_preserves_consistency :
    ∀ l : List (Nat × Option Nat), ∀ st st1 : State, IndexConsistent st →
      FreshSeq st l → applyAssignments st l = some st1 → IndexConsistent st1 := by
  intro l
  induction l with
  | nil =>
    intro st st1 hc _ h
    cases h
    exact hc
  | cons pr rest ih =>
    obtain ⟨n, e⟩ := pr
    intro st st1 hc hf h
    simp only [applyAssignments] at h
    cases hse : setElement st n e with
    | none => rw [hse] at h; cases h
    | some st2 =>
      rw [hse] at h; dsimp only at h
      exact ih st2 st1 (setElement_preserves_consistency st n e st2 hc hf.1 hse)
        (hf.2 st2 hse) h

/-- C1 counterexample: assigning element 5 to node 0 and then element 5
to node 1 leaves BOTH nodes with element 5 (the setter never clears the
first node's backing field), while the index resolves 5 to node 1 only,
so the claimed at-most-one invariant fails for this sequence. -/
theorem element_index_counterexample :
    doubleAssign = some doubleAssignState ∧
    (doubleAssignState.nodes 0).underElement = some 5 ∧
    (doubleAssignState.nodes 1).underElement = some 5 ∧
    (0 : Nat) ≠ 1 ∧
    getElementRenderNode doubleAssignState 5 = some 1 ∧
    ¬ IndexConsistent doubleAssignState := by
  refine ⟨rfl, by decide, by decide, by decide, by decide, ?_⟩
  rintro ⟨huniq, -⟩
  exact absurd (huniq 0 1 5 (by decide) (by decide)) (by decide)

/-- C1 amended: after any sequence of element assignments in which each
assigned non-null element is not, at the moment of that assignment, the
element of a different node, at most one node has any element E and the
index lookup returns exactly that node or null; and every single
successful assignment registers the new non-null element and
deregisters the previous non-null element (when different). -/
theorem element_index_amended :
    (∀ st l st1, IndexConsistent st → FreshSeq st l →
        applyAssignments st l = some st1 → IndexConsistent st1) ∧
    (∀ st n e2 st1, setElement st n (some e2) = some st1 →
        getElementRenderNode st1 e2 = some n) ∧
    (∀ st n e st1 c, setElement st n e = some st1 →
        (st.nodes n).underElement = some c → e ≠ some c →
        getElementRenderNode st1 c = none) := by
  refine ⟨fun st l st1 hc hf h =>
    applyAssignments_preserves_consistency l st st1 hc hf h, ?_, ?_⟩
  · intro st n e2 st1 h
    have hx := (setElement_spec st n (some e2) st1 h).2 e2
    rw [getElementRenderNode, hx, if_pos rfl]
  · intro st n e st1 c h hcur hne
    have hx := (setElement_spec st n e st1 h).2 c
    rw [getElementRenderNode, hx, if_neg (fun hh => hne hh.symm), if_pos hcur]

/-- Closed instance of the amended C1: one fresh assignment of element
5 to node 0 of the flat two-node state keeps the state consistent. -/
theorem element_index_amended_witness :
    IndexConsistent singleAssignState := by
  have happ : applyAssignments twoNodeState [(0, some 5)] = some singleAssignState := rfl
  refine element_index_amended.1 twoNodeState [(0, some 5)] singleAssignState
    ⟨?_, ?_⟩ ⟨?_, fun st1 _ => trivial⟩ happ
  · intro n1 n2 e h1 h2
    exact absurd h1 (by simp [twoNodeState, freshLiveNode, RenderNode.construct])
  · intro e k
    simp [twoNodeState, freshLiveNode, RenderNode.construct]
  · intro e2 _ m _
    simp [twoNodeState, freshLiveNode, RenderNode.construct]

/-- C6: destroy nulls the node's element, parent and postNode, removes
its previously registered element from the index, and touches neither
any other node nor the node's child list. -/
theorem destroy_effect (st : State) (n : Nat) (st1 : State)
    (h : destroy st n = some st1) :
    ((st1.nodes n).underElement = none) ∧
    ((st1.nodes n).parent = none) ∧
    ((st1.nodes n).postNode = none) ∧
    (∀ c, (st.nodes n).underElement = some c → getElementRenderNode st1 c = none) ∧
    (∀ m, m ≠ n → st1.nodes m = st.nodes m) ∧
    ((st1.nodes n).childNodesList = (st.nodes n).childNodesList) := by
  unfold destroy at h
  cases hse : setElement st n none with
  | none => rw [hse] at h; cases h
  | some st2 =>
    rw [hse] at h; dsimp only at h; cases h
    obtain ⟨hnodes, hindex⟩ := setElement_spec st n none st2 hse
    refine ⟨?_, ?_, ?_, ?_, ?_, ?_⟩
    · simp [updateNode_nodes, hnodes n]
    · simp [updateNode_nodes]
    · simp [updateNode_nodes]
    · intro c hc
      rw [getElementRenderNode, updateNode_index, hindex c, if_neg (by simp), if_pos hc]
    · intro m hm
      rw [updateNode_nodes, if_neg hm, hnodes m, if_neg hm]
    · simp [updateNode_nodes, hnodes n]

/-- Closed instance of C6: destroying the rendered node clears its
element, drops element 7 from the index and leaves node 1 alone. -/
theorem destroy_effect_witness :
    ((destroyedState.nodes 0).underElement = none) ∧
    (getElementRenderNode destroyedState 7 = none) ∧
    (destroyedState.nodes 1 = renderedState.nodes 1) := by
  obtain ⟨h1, _, _, h4, h5, _⟩ := destroy_effect renderedState 0 destroyedState rfl
  exact ⟨h1, h4 7 (by decide), h5 1 (by decide)⟩

/-- C10: destroy also nulls the renderTree reference, and any later
assignment of a non-null element to the destroyed node crashes on that
null reference instead of registering anything. -/
theorem destroy_terminal (st : State) (n : Nat) (st1 : State)
    (h : destroy st n = some st1) :
    ((st1.nodes n).renderTree = false) ∧
    (∀ e, setElement st1 n (some e) = none) := by
  unfold destroy at h
  cases hse : setElement st n none with
  | none => rw [hse] at h; cases h
  | some st2 =>
    rw [hse] at h; dsimp only at h; cases h
    obtain ⟨hnodes, _⟩ := setElement_spec st n none st2 hse
    have hrt : ((updateNode st2 n (fun rn =>
        { rn with parent := none, postNode := none, renderTree := false })).nodes n).renderTree
        = false := by
      simp [updateNode_nodes]
    have huel : ((updateNode st2 n (fun rn =>
        { rn with parent := none, postNode := none, renderTree := false })).nodes n).underElement
        = none := by
      simp [updateNode_nodes, hnodes n]
    refine ⟨hrt, fun e => ?_⟩
    simp [setElement, huel, hrt]

/-- Closed instance of C10: re-assigning element 9 to the destroyed
node crashes. -/
theorem destroy_terminal_witness :
    setElement destroyedState 0 (some 9) = none :=
  (destroy_terminal renderedState 0 destroyedState rfl).2 9

/-- C7: isAttached fails with the assertion error exactly when the
node's element is null; with a non-null element on a live node it
returns, without error, whether the tree's root DOM element contains
the element. -/
theorem isAttached_assertion (cns : Nat → Nat → Bool) (rootEl : Nat)
    (rn : RenderNode) :
    (isAttached cns rootEl rn = Except.error AttachFailure.assertionError ↔
      rn.underElement = none) ∧
    (∀ el, rn.underElement = some el → rn.renderTree = true →
      isAttached cns rootEl rn = Except.ok (cns rootEl el)) := by
  constructor
  · cases hel : rn.underElement with
    | none => simp [isAttached, hel]
    | some el =>
      simp only [isAttached, hel]
      by_cases hrt : rn.renderTree = true
      · simp [hrt]
      · simp [hrt]
  · intro el hel hrt
    simp [isAttached, hel, hrt]

/-- Closed instance of C7: the unrendered fresh node trips the
assertion, the rendered node reports containment of its element. -/
theorem isAttached_assertion_witness :
    (isAttached cnsEq 3 freshLiveNode = Except.error AttachFailure.assertionError) ∧
    (isAttached cnsEq 7 nodeWithElem = Except.ok true) :=
  ⟨(isAttached_assertion cnsEq 3 freshLiveNode).1.mpr rfl,
   (isAttached_assertion cnsEq 7 nodeWithElem).2 7 rfl rfl⟩

/-- C8: a successful reparsesMutationOfChildNode call answers false
exactly when the post node is a card section and the mutated DOM node
lies inside the card's own owned element; in every other successful
case it answers true. -/
theorem reparses_card_policy (cns : Nat → Nat → Bool) (rn : RenderNode)
    (d : Nat) (b : Bool)
    (h : reparsesMutationOfChildNode cns rn d = some b) :
    (b = false ↔ ∃ pn cn el, rn.postNode = some pn ∧ pn.isCardSection = true ∧
      rn.cardNode = some cn ∧ cn.element = some el ∧ cns el d = true) := by
  unfold reparsesMutationOfChildNode at h
  cases hpn : rn.postNode with
  | none => rw [hpn] at h; cases h
  | some pn =>
    rw [hpn] at h; dsimp only at h
    by_cases hcs : pn.isCardSection = true
    · rw [if_pos hcs] at h
      cases hcn : rn.cardNode with
      | none => rw [hcn] at h; cases h
      | some cn =>
        rw [hcn] at h; dsimp only at h
        cases hel : cn.element with
        | none => rw [hel] at h; cases h
        | some el =>
          rw [hel] at h; dsimp only at h; cases h
          constructor
          · intro hb
            refine ⟨pn, cn, el, rfl, hcs, rfl, hel, ?_⟩
            simpa using hb
          · rintro ⟨pn2, cn2, el2, hpn2, hcs2, hcn2, hel2, hcns⟩
            cases hpn2
            cases hcn2
            rw [hel] at hel2
            cases hel2
            simp [hcns]
    · rw [if_neg hcs] at h
      cases h
      constructor
      · intro hb
        cases hb
      · rintro ⟨pn2, cn2, el2, hpn2, hcs2, hcn2, hel2, hcns⟩
        cases hpn2
        exact absurd hcs2 hcs

/-- Closed instance of C8: mutating node 4 inside the card's owned
element 4 of the card-section render node yields false, and the
characterization's right side holds there. -/
theorem reparses_card_policy_witness :
    (false = false ↔ ∃ pn cn el, cardRN.postNode = some pn ∧
      pn.isCardSection = true ∧ cardRN.cardNode = some cn ∧
      cn.element = some el ∧ cnsEq el 4 = true) :=
  reparses_card_policy cnsEq cardRN 4 false rfl

/-- C9: a freshly constructed RenderNode is dirty, not removed,
unrendered with a null element, parentless, and has every specialized
slot null. -/
theorem construct_defaults (pn : Option PostNode) (rt : Bool) :
    ((RenderNode.construct pn rt).isDirty = true) ∧
    ((RenderNode.construct pn rt).isRemoved = false) ∧
    ((RenderNode.construct pn rt).underElement = none) ∧
    ((RenderNode.construct pn rt).isRendered = false) ∧
    ((RenderNode.construct pn rt).parent = none) ∧
    ((RenderNode.construct pn rt).markupElement = none) ∧
    ((RenderNode.construct pn rt).headTextNode = none) ∧
    ((RenderNode.construct pn rt).tailTextNode = none) ∧
    ((RenderNode.construct pn rt).atomNode = none) ∧
    ((RenderNode.construct pn rt).cardNode = none) :=
  ⟨rfl, rfl, rfl, rfl, rfl, rfl, rfl, rfl, rfl, rfl⟩

end MobiledocRenderTree
